import Mathlib

/-!
Shallow embedding of the EcoView persistence subsystem
(`EcoViewDatabase` in the repository's database script, plus the parts of
`AnalysisLogger` the claims reference).

Modelling conventions:
* JS numbers are modelled as `ℚ` (the claims under verification are
  structural, none depends on binary floating-point rounding).
* A JS value that may be a number, `null` or `undefined` is `JVal`.
* `localStorage` is one optional string (the value stored under the key
  `ecoview_historical_data`); `JSON.parse` failure is modelled by a
  concrete executable serializer `parseAnalyses` returning `none`.
* IndexedDB's `analyses` object store is a list of records kept in
  ascending key order (IndexedDB `getAll` returns key order), plus the
  auto-increment key generator.
* Asynchronous methods returning promises are modelled as
  `Except DBErr`-valued functions; a rejected promise (or a synchronously
  thrown exception such as `this.db.transaction` on a null handle) is
  `.error`.
* `new Date().toISOString()` and `Date.now()` are passed in explicitly as
  a `Clock`.
-/

namespace EcoView

/-- A JavaScript numeric-or-missing field value: a number, `null`, or `undefined`. -/
inductive JVal where
  | num (q : ℚ)
  | null
  | undef
deriving DecidableEq

/-- JS `v >= m` where `v` is a number, `null` or `undefined` and `m` a number:
`null` coerces to `0`, `undefined` yields `NaN` so the comparison is false. -/
def JVal.jsGe : JVal → ℚ → Bool
  | .num q, m => decide (m ≤ q)
  | .null, m => decide (m ≤ 0)
  | .undef, _ => false

/-- Whether the value is an actual number (JS `v !== null && v !== undefined`). -/
def JVal.isNum : JVal → Bool
  | .num _ => true
  | _ => false

/-- The numeric content of a `JVal` (only meaningful when `isNum`). -/
def JVal.toQ : JVal → ℚ
  | .num q => q
  | _ => 0

/-- JS truthiness of a numeric-or-missing value (`0`, `null`, `undefined` are falsy). -/
def JVal.truthy : JVal → Bool
  | .num q => q ≠ 0
  | _ => false

/-- The open `metadata` mapping, restricted to the keys the persistence layer
itself reads (`exportData` reads `greenCover` and `treeCount`; every other
key is opaque to this subsystem). A key that is absent is `.undef`. -/
structure Metadata where
  greenCover : JVal
  treeCount : JVal
deriving DecidableEq

/-- One persisted analysis record (the sole persisted entity). `species` and
`image` are string-or-null fields; `confidence` is numeric-or-missing;
`metadata` is absent (`none`) or an object. -/
structure AnalysisRecord where
  id : Int
  date : String
  type : String
  species : Option String
  confidence : JVal
  image : Option String
  metadata : Option Metadata
  createdAt : String
  updatedAt : String
deriving DecidableEq

/-- The optional predicate set accepted by `applyFilters`. A `none` field is
an absent key on the JS filter object. -/
structure Filters where
  startDate : Option String := none
  endDate : Option String := none
  type : Option String := none
  species : Option String := none
  minConfidence : Option ℚ := none

/-- JS `<=`-style lexicographic (code-unit) comparison of character
lists, written as structural recursion so concrete inputs evaluate inside
the kernel. -/
def charsLe : List Char → List Char → Bool
  | [], _ => true
  | _ :: _, [] => false
  | a :: as, b :: bs => if a = b then charsLe as bs else decide (a < b)

/-- JS string `<=` (lexicographic by code units). -/
def strLe (a b : String) : Bool := charsLe a.data b.data

/-- JS truthiness of a string-or-absent filter field: truthy iff present and
non-empty. -/
def strTruthy : Option String → Bool
  | some s => s ≠ ""
  | none => false

/-- JS truthiness of a number-or-absent filter field: truthy iff present and
non-zero. -/
def qTruthy : Option ℚ → Bool
  | some m => m ≠ 0
  | none => false

/-- The filter engine (`EcoViewDatabase.applyFilters`). Each predicate is
guarded by JS truthiness of the filter field (`if (filters.startDate) ...`),
so an empty-string or zero filter value skips that predicate entirely.
Comparisons are the JS ones: lexicographic `>=`/`<=` on the date strings,
strict equality on `type`/`species`, and coercing `>=` on `confidence`. -/
def applyFilters (analyses : List AnalysisRecord) (filters : Filters) : List AnalysisRecord :=
  let f1 := if strTruthy filters.startDate then
      analyses.filter (fun a => strLe (filters.startDate.getD "") a.date) else analyses
  let f2 := if strTruthy filters.endDate then
      f1.filter (fun a => strLe a.date (filters.endDate.getD "")) else f1
  let f3 := if strTruthy filters.type then
      f2.filter (fun a => decide (a.type = filters.type.getD "")) else f2
  let f4 := if strTruthy filters.species then
      f3.filter (fun a => decide (a.species = filters.species)) else f3
  if qTruthy filters.minConfidence then
    f4.filter (fun a => a.confidence.jsGe (filters.minConfidence.getD 0)) else f4

/-- Single-pass characterisation of the filter engine: the conjunction of the
five truthiness-guarded predicates. -/
def passesFilters (filters : Filters) (a : AnalysisRecord) : Bool :=
  (!strTruthy filters.startDate || strLe (filters.startDate.getD "") a.date) &&
  (!strTruthy filters.endDate || strLe a.date (filters.endDate.getD "")) &&
  (!strTruthy filters.type || decide (a.type = filters.type.getD "")) &&
  (!strTruthy filters.species || decide (a.species = filters.species)) &&
  (!qTruthy filters.minConfidence || a.confidence.jsGe (filters.minConfidence.getD 0))

/-- Splitting a character list on a separator character, mirroring the JS
`String.split` / Lean `String.splitOn` behaviour for one-character
separators. Written as structural recursion so that concrete inputs
evaluate inside the kernel. -/
def splitChars (sep : Char) : List Char → List (List Char)
  | [] => [[]]
  | c :: cs =>
    match splitChars sep cs with
    | h :: t => if c = sep then [] :: h :: t else (c :: h) :: t
    | [] => [[c]]

/-- The numeric value of a decimal digit character. -/
def digitVal (c : Char) : Option Nat :=
  if '0' ≤ c ∧ c ≤ '9' then some (c.toNat - '0'.toNat) else none

/-- Parse a non-empty all-digit character list as a natural number. -/
def natOfChars (cs : List Char) : Option Nat :=
  if cs = [] then none
  else cs.foldl (fun acc c =>
    match acc, digitVal c with
    | some n, some d => some (n * 10 + d)
    | _, _ => none) (some 0)

/-- Parse an optionally minus-signed digit list as an integer. -/
def intOfChars : List Char → Option Int
  | '-' :: cs => (natOfChars cs).map (fun n => -(n : Int))
  | cs => (natOfChars cs).map (fun n => (n : Int))

/-- Model of `new Date(s)` on a record's `date` string: the time value for a valid
ISO `YYYY-MM-DD` calendar date, `none` for an invalid date (JS `NaN`).
The value `y*10000 + m*100 + d` is strictly monotone in the date, hence
sign-equivalent to milliseconds-since-epoch inside the sort comparator. -/
def dateValue (s : String) : Option Int :=
  match splitChars '-' s.data with
  | [y, m, d] =>
    if y.length = 4 && m.length = 2 && d.length = 2 then
      match natOfChars y, natOfChars m, natOfChars d with
      | some yn, some mn, some dn =>
        if 1 ≤ mn && mn ≤ 12 && 1 ≤ dn && dn ≤ 31 then
          some ((yn : Int) * 10000 + (mn : Int) * 100 + (dn : Int))
        else none
      | _, _, _ => none
    else none
  | _ => none

/-- The sort comparator `(a, b) => new Date(b.date) - new Date(a.date)`.
A comparison involving an invalid date produces `NaN`, which the JS sort
machinery treats as `+0`. -/
def dateCmp (a b : AnalysisRecord) : Int :=
  match dateValue b.date, dateValue a.date with
  | some vb, some va => vb - va
  | _, _ => 0

/-- Boolean ordering derived from the comparator. -/
def jsDateLe (a b : AnalysisRecord) : Bool := decide (dateCmp a b ≤ 0)

/-- Stable insertion into a sorted list: walk past elements strictly
preceding `a` under the comparator ordering (`le b a` but not `le a b`),
and place `a` before the first element that does not, in particular before
every element comparing equal to it. -/
def insertByCmp (le : AnalysisRecord → AnalysisRecord → Bool) (a : AnalysisRecord) :
    List AnalysisRecord → List AnalysisRecord
  | [] => [a]
  | b :: bs => if le b a && !le a b then b :: insertByCmp le a bs else a :: b :: bs

/-- Model of `analyses.sort((a, b) => new Date(b.date) - new Date(a.date))`:
JS `Array.prototype.sort` is required (ES2019) to produce the sorted,
stable permutation of its input for a consistent comparator, which
characterises it extensionally; a stable insertion sort over the
comparator-derived ordering is that permutation, written structurally so
concrete stores evaluate inside the kernel. -/
def sortByDateDesc (l : List AnalysisRecord) : List AnalysisRecord :=
  l.foldr (insertByCmp jsDateLe) []

/-! ### Serialization of the fallback blob

The fallback adapter keeps the whole record collection as one serialized
string under `localStorage['ecoview_historical_data']`. `JSON.stringify` /
`JSON.parse` are modelled by a concrete executable serializer: an injective
encoding on separator-free data, whose decoder returns `none` exactly where
`JSON.parse` would throw a `SyntaxError` (a corrupt payload). All decoding
is structural recursion over character lists so concrete payloads evaluate
inside the kernel. -/

/-- Encode a rational as `num/den`. -/
def encQ (q : ℚ) : String := toString q.num ++ "/" ++ toString q.den

/-- Decode a rational from `num/den`. -/
def decQ (cs : List Char) : Option ℚ :=
  match splitChars '/' cs with
  | [n, d] =>
    match intOfChars n, natOfChars d with
    | some ni, some dn => if dn = 0 then none else some (mkRat ni dn)
    | _, _ => none
  | _ => none

/-- Encode a numeric-or-missing value. -/
def encJVal : JVal → String
  | .num q => "n" ++ encQ q
  | .null => "z"
  | .undef => "u"

/-- Decode a numeric-or-missing value. -/
def decJVal : List Char → Option JVal
  | ['z'] => some .null
  | ['u'] => some .undef
  | 'n' :: cs => (decQ cs).map .num
  | _ => none

/-- Encode a string-or-null field. -/
def encOptStr : Option String → String
  | none => "-"
  | some s => "+" ++ s

/-- Decode a string-or-null field. -/
def decOptStr : List Char → Option (Option String)
  | ['-'] => some none
  | '+' :: cs => some (some ⟨cs⟩)
  | _ => none

/-- Encode the metadata object. -/
def encMeta (m : Metadata) : String := encJVal m.greenCover ++ ";" ++ encJVal m.treeCount

/-- Decode the metadata object. -/
def decMeta (cs : List Char) : Option Metadata :=
  match splitChars ';' cs with
  | [g, t] =>
    match decJVal g, decJVal t with
    | some gv, some tv => some ⟨gv, tv⟩
    | _, _ => none
  | _ => none

/-- Encode an absent-or-object metadata field. -/
def encOptMeta : Option Metadata → String
  | none => "-"
  | some m => "+" ++ encMeta m

/-- Decode an absent-or-object metadata field. -/
def decOptMeta : List Char → Option (Option Metadata)
  | ['-'] => some none
  | '+' :: cs => (decMeta cs).map some
  | _ => none

/-- Encode one record, fields separated by `|`. -/
def encRec (a : AnalysisRecord) : String :=
  String.intercalate "|" [toString a.id, a.date, a.type, encOptStr a.species,
    encJVal a.confidence, encOptStr a.image, encOptMeta a.metadata, a.createdAt, a.updatedAt]

/-- Decode one record. -/
def decRec (cs : List Char) : Option AnalysisRecord :=
  match splitChars '|' cs with
  | [i, d, t, sp, c, im, md, ca, ua] =>
    match intOfChars i, decOptStr sp, decJVal c, decOptStr im, decOptMeta md with
    | some iv, some spv, some cv, some imv, some mdv =>
      some { id := iv, date := ⟨d⟩, type := ⟨t⟩, species := spv, confidence := cv,
             image := imv, metadata := mdv, createdAt := ⟨ca⟩, updatedAt := ⟨ua⟩ }
    | _, _, _, _, _ => none
  | _ => none

/-- Model of `JSON.stringify` of the record array (the fallback blob format). -/
def stringifyAnalyses (l : List AnalysisRecord) : String :=
  "[" ++ String.intercalate "\n" (l.map encRec) ++ "]"

/-- Model of `JSON.parse` of a fallback blob: `none` models a thrown `SyntaxError`. -/
def parseAnalyses (s : String) : Option (List AnalysisRecord) :=
  match s.data with
  | '[' :: rest =>
    match rest.reverse with
    | ']' :: mid =>
      if mid = [] then some []
      else (splitChars '\n' mid.reverse).mapM decRec
    | _ => none
  | _ => none

/-! ### Store state -/

/-- The error taxonomy observable from the database wrapper's promises.
`nullDb` is the `TypeError` thrown by `this.db.transaction(...)` when the
handle is `null` (fallback mode); `notFound` is `Error('Analysis not found')`;
`corrupt` is a `localStorage`/`JSON.parse` exception; `dupKey` is the
IndexedDB `ConstraintError` on `add` with an existing key. -/
inductive DBErr where
  | nullDb
  | notFound
  | corrupt
  | dupKey
deriving DecidableEq

/-- The IndexedDB `analyses` object store: records kept in ascending key
order (the order `getAll` returns) plus the auto-increment key generator. -/
structure PrimaryStore where
  recs : List AnalysisRecord
  nextId : Int
deriving DecidableEq

/-- The whole persistent state visible to `EcoViewDatabase`:
`db` is the handle (`none` = session fallback mode), `ls` the
`localStorage['ecoview_historical_data']` entry. -/
structure DBState where
  db : Option PrimaryStore
  ls : Option String
deriving DecidableEq

/-- The ambient clock: `new Date().toISOString()` and `Date.now()`. -/
structure Clock where
  iso : String
  ms : Int

/-- The caller-supplied analysis payload (`analysisData`): the record fields
minus the audit timestamps, which `addAnalysis` always overwrites, and with
an optional explicit `id` (records re-imported by `importData` carry one;
logger-created payloads do not). -/
structure RawRecord where
  id : Option Int := none
  date : String
  type : String
  species : Option String := none
  confidence : JVal := .null
  image : Option String := none
  metadata : Option Metadata := none

/-- Stamp a raw payload into a full record with the given key and audit
timestamps (`{...analysisData, createdAt: ..., updatedAt: ...}`). -/
def stampRecord (raw : RawRecord) (i : Int) (now : String) : AnalysisRecord :=
  { id := i, date := raw.date, type := raw.type, species := raw.species,
    confidence := raw.confidence, image := raw.image, metadata := raw.metadata,
    createdAt := now, updatedAt := now }

/-- Insert a record into the key-ordered list (IndexedDB keeps key order). -/
def insertByKey (r : AnalysisRecord) : List AnalysisRecord → List AnalysisRecord
  | [] => [r]
  | x :: xs => if r.id < x.id then r :: x :: xs else x :: insertByKey r xs

/-- Model of `store.put`: replace the record with the same key, or insert. -/
def putByKey (r : AnalysisRecord) : List AnalysisRecord → List AnalysisRecord
  | [] => [r]
  | x :: xs =>
    if r.id = x.id then r :: xs
    else if r.id < x.id then r :: x :: xs
    else x :: putByKey r xs

/-! ### The `EcoViewDatabase` operations -/

/-- Operation `addAnalysisToLocalStorage`: read the blob (`stored ? JSON.parse(stored)
: []`, an empty string being falsy), append the record with `id: Date.now()`
(overridden by an explicit id on the payload, since the payload is spread
after the generated id), write the blob back. A `localStorage`/`JSON.parse`
exception is re-thrown by the `catch` block. -/
def addAnalysisToLocalStorage (st : DBState) (raw : RawRecord) (clock : Clock) :
    Except DBErr (Int × DBState) := do
  let analyses ← match st.ls with
    | none => pure []
    | some s =>
      if s = "" then pure []
      else match parseAnalyses s with
        | some l => pure l
        | none => throw .corrupt
  let analysis := stampRecord raw (raw.id.getD clock.ms) clock.iso
  let analyses := analyses ++ [analysis]
  pure (analysis.id, { st with ls := some (stringifyAnalyses analyses) })

/-- Operation `addAnalysis`: with no handle, go straight to localStorage. Otherwise
stamp the audit timestamps and `store.add`; a missing payload id takes the
next auto-increment key, an explicit fresh id is used as the key (bumping
the generator past it), and an explicit duplicate id raises
`ConstraintError`, on which the error handler falls back to localStorage
for this one call. -/
def addAnalysis (st : DBState) (raw : RawRecord) (clock : Clock) :
    Except DBErr (Int × DBState) :=
  match st.db with
  | none => addAnalysisToLocalStorage st raw clock
  | some p =>
    match raw.id with
    | none =>
      .ok (p.nextId, { st with db := some ⟨insertByKey (stampRecord raw p.nextId clock.iso) p.recs, p.nextId + 1⟩ })
    | some i =>
      if p.recs.any (fun r => r.id = i) then
        addAnalysisToLocalStorage st raw clock
      else
        .ok (i, { st with db := some ⟨insertByKey (stampRecord raw i clock.iso) p.recs, max p.nextId (i + 1)⟩ })

/-- Operation `getAnalysesFromLocalStorage`: read and parse the blob, filter, sort.
The surrounding `try`/`catch` swallows any exception and returns `[]`. -/
def getAnalysesFromLocalStorage (st : DBState) (filters : Filters) : List AnalysisRecord :=
  match st.ls with
  | none => sortByDateDesc (applyFilters [] filters)
  | some s =>
    if s = "" then sortByDateDesc (applyFilters [] filters)
    else match parseAnalyses s with
      | some analyses => sortByDateDesc (applyFilters analyses filters)
      | none => []

/-- Operation `getAnalyses`: with no handle, delegate to localStorage; otherwise
`getAll` (key order), filter, sort by date descending. -/
def getAnalyses (st : DBState) (filters : Filters) : Except DBErr (List AnalysisRecord) :=
  match st.db with
  | none => .ok (getAnalysesFromLocalStorage st filters)
  | some p => .ok (sortByDateDesc (applyFilters p.recs filters))

/-- Operation `getAnalysis(id)`: `this.db.transaction` throws on a null handle; the
IndexedDB `get` request succeeds with `undefined` (here `none`) when no
record has the key — it does not error. -/
def getAnalysis (st : DBState) (id : Int) : Except DBErr (Option AnalysisRecord) :=
  match st.db with
  | none => .error .nullDb
  | some p => .ok (p.recs.find? (fun r => r.id = id))

/-- A merge-patch (`updateData`): a `none` field is a key absent from the
patch object; a present field overwrites the record's field wholesale
(object spread is shallow, so a present `metadata` replaces the whole
metadata object). -/
structure Patch where
  id : Option Int := none
  date : Option String := none
  type : Option String := none
  species : Option (Option String) := none
  confidence : Option JVal := none
  image : Option (Option String) := none
  metadata : Option (Option Metadata) := none
  createdAt : Option String := none

/-- Merge `{...analysis, ...updateData, updatedAt: new Date().toISOString()}`. -/
def mergePatch (a : AnalysisRecord) (p : Patch) (now : String) : AnalysisRecord :=
  { id := p.id.getD a.id,
    date := p.date.getD a.date,
    type := p.type.getD a.type,
    species := p.species.getD a.species,
    confidence := p.confidence.getD a.confidence,
    image := p.image.getD a.image,
    metadata := p.metadata.getD a.metadata,
    createdAt := p.createdAt.getD a.createdAt,
    updatedAt := now }

/-- Operation `updateAnalysis(id, updateData)`: throws on a null handle; fetches the
record, rejects with `Error('Analysis not found')` if absent, else merges
the patch, refreshes `updatedAt`, `put`s the merged record back and
resolves with it. -/
def updateAnalysis (st : DBState) (id : Int) (patch : Patch) (clock : Clock) :
    Except DBErr (AnalysisRecord × DBState) :=
  match st.db with
  | none => .error .nullDb
  | some p =>
    match p.recs.find? (fun r => r.id = id) with
    | some analysis =>
      let updated := mergePatch analysis patch clock.iso
      .ok (updated, { st with db := some { p with recs := putByKey updated p.recs } })
    | none => .error .notFound

/-- Operation `deleteAnalysis(id)`: throws on a null handle; the IndexedDB `delete`
request succeeds (resolving `true`) whether or not the key was present. -/
def deleteAnalysis (st : DBState) (id : Int) : Except DBErr (Bool × DBState) :=
  match st.db with
  | none => .error .nullDb
  | some p => .ok (true, { st with db := some { p with recs := p.recs.filter (fun r => r.id ≠ id) } })

/-- Operation `clearAllData()`: throws on a null handle; clears every record (the key
generator is not reset). -/
def clearAllData (st : DBState) : Except DBErr (Bool × DBState) :=
  match st.db with
  | none => .error .nullDb
  | some p => .ok (true, { st with db := some { p with recs := [] } })

/-! ### Analytics -/

/-- The truthy species of a record (`analyses.filter(a => a.species)`):
`null` and the empty string are falsy. -/
def speciesTruthy (a : AnalysisRecord) : Option String :=
  match a.species with
  | some s => if s = "" then none else some s
  | none => none

/-- Step `freq[k] = (freq[k] || 0) + 1` on an insertion-ordered association list
(the iteration order of a JS object's non-integer-like string keys). -/
def bump (m : List (String × Nat)) (k : String) : List (String × Nat) :=
  if m.any (fun kv => kv.1 = k) then
    m.map (fun kv => if kv.1 = k then (kv.1, kv.2 + 1) else kv)
  else m ++ [(k, 1)]

/-- The `speciesFreq` object: frequency of each truthy species, keys in
first-encounter order. -/
def speciesFreq (analyses : List AnalysisRecord) : List (String × Nat) :=
  analyses.foldl (fun m a =>
    match speciesTruthy a with
    | some s => bump m s
    | none => m) []

/-- Property lookup `freq[k]` (`none` models `undefined`). -/
def freqLookup (m : List (String × Nat)) (k : String) : Option Nat :=
  (m.find? (fun kv => kv.1 = k)).map (fun kv => kv.2)

/-- Model of `Object.keys(speciesFreq).reduce((a, b) => speciesFreq[a] >
speciesFreq[b] ? a : b, null)`: the accumulator starts at `null`
(`speciesFreq[null] > n` is false, so the first key replaces it), and on
every later step the incoming key wins unless the accumulator's count is
strictly greater. -/
def jsReduceMostCommon (m : List (String × Nat)) : Option String :=
  (m.map (fun kv => kv.1)).foldl (fun acc b =>
    match acc with
    | none => some b
    | some a => if (freqLookup m a).getD 0 > (freqLookup m b).getD 0 then some a else some b) none

/-- The analytics report of `getAnalytics`. The two `count-by` mappings are
insertion-ordered association lists. -/
structure Analytics where
  totalAnalyses : Nat
  speciesCount : Nat
  averageConfidence : ℚ
  mostCommonSpecies : Option String
  analysesByType : List (String × Nat)
  analysesByDate : List (String × Nat)
  recentAnalyses : List AnalysisRecord
deriving DecidableEq

/-- The body of `getAnalytics` applied to the already-fetched record list:
total count, distinct truthy species count, mean confidence over records
whose confidence is an actual number (0 when there are none), the
`reduce`-computed most common species, count-by-type, count-by-day
(`a.date.split('T')[0]`), and the first 10 records of the sorted list. -/
def computeAnalytics (analyses : List AnalysisRecord) : Analytics :=
  let confRecs := analyses.filter (fun a => a.confidence.isNum)
  { totalAnalyses := analyses.length,
    speciesCount := (analyses.filterMap speciesTruthy).dedup.length,
    averageConfidence :=
      if confRecs.length > 0 then
        (confRecs.foldl (fun sum a => sum + a.confidence.toQ) 0) / (confRecs.length : ℚ)
      else 0,
    mostCommonSpecies := jsReduceMostCommon (speciesFreq analyses),
    analysesByType := analyses.foldl (fun m a => bump m a.type) [],
    analysesByDate := analyses.foldl (fun m a => bump m ⟨(splitChars 'T' a.date.data).headD []⟩) [],
    recentAnalyses := analyses.take 10 }

/-- Operation `getAnalytics()`: fetch via `getAnalyses()` (so it inherits its
fallback behaviour) and derive the report. -/
def getAnalytics (st : DBState) : Except DBErr Analytics :=
  (getAnalyses st {}).map computeAnalytics

/-! ### Export / import -/

/-- The JS rendering `x || ''` of a numeric-or-missing CSV cell: `null`,
`undefined` and `0` are falsy, hence the empty cell. -/
def csvCell (v : JVal) : String :=
  match v with
  | .num q => if q = 0 then "" else toString q
  | _ => ""

/-- The CSV header cells, exactly as listed in `exportData`. -/
def csvHeaderCells : List String :=
  ["ID", "Date", "Type", "Species", "Confidence", "Green Cover", "Tree Count", "Created At"]

/-- Header line `headers.join(',')`. -/
def csvHeader : String := String.intercalate "," csvHeaderCells

/-- The 8 cells of one record's CSV row: id, date, type, `species || ''`,
`confidence || ''`, `metadata?.greenCover || ''`, `metadata?.treeCount || ''`,
createdAt. -/
def csvRow (a : AnalysisRecord) : List String :=
  [toString a.id, a.date, a.type,
   (match a.species with | some s => s | none => ""),
   csvCell a.confidence,
   (match a.metadata with | some m => csvCell m.greenCover | none => ""),
   (match a.metadata with | some m => csvCell m.treeCount | none => ""),
   a.createdAt]

/-- One record's CSV line (`[...].join(',')` — no quoting or escaping). -/
def csvLine (a : AnalysisRecord) : String := String.intercalate "," (csvRow a)

/-- Operation `exportData(format)`: fetch the filtered/sorted set; for `'csv'`,
the header line followed by one line per record, joined by newlines; for
any other format, the serialized JSON array. -/
def exportData (st : DBState) (format : String) : Except DBErr String :=
  (getAnalyses st {}).map (fun analyses =>
    if format = "csv" then
      String.intercalate "\n" (csvHeader :: analyses.map csvLine)
    else
      stringifyAnalyses analyses)

/-- Turn a parsed record back into the payload handed to `addAnalysis`
(imported records keep their id field; the audit stamps are regenerated). -/
def recToRaw (a : AnalysisRecord) : RawRecord :=
  { id := some a.id, date := a.date, type := a.type, species := a.species,
    confidence := a.confidence, image := a.image, metadata := a.metadata }

/-- The import loop: each record is created via `addAnalysis` inside
`try { ... } catch { log }`, so a failing create leaves the state as it was
and the loop continues with the next record. -/
def importLoop (st : DBState) (l : List RawRecord) (clock : Clock) : DBState :=
  l.foldl (fun s raw =>
    match addAnalysis s raw clock with
    | .ok (_, s') => s'
    | .error _ => s) st

/-- Operation `importData(data, 'json')`: parse the whole payload first (a parse
exception propagates — it is outside the per-record `try`), then create
each record individually, and return `analyses.length` — the size of the
fully-parsed set, regardless of how many creates succeeded. (The CSV branch
differs only in the parser: its header-derived rows keep every cell as a
string, outside this record model.) -/
def importData (st : DBState) (data : String) (clock : Clock) :
    Except DBErr (Nat × DBState) :=
  match parseAnalyses data with
  | none => .error .corrupt
  | some analyses => .ok (analyses.length, importLoop st (analyses.map recToRaw) clock)

/-- Operation `getStats()`: throws on a null handle; resolves the record count, the
best-effort size estimate (`getDatabaseSize()` always returns `0` — the
inner promise's value is discarded), and the current time. -/
def getStats (st : DBState) (clock : Clock) : Except DBErr (Nat × Nat × String) :=
  match st.db with
  | none => .error .nullDb
  | some p => .ok (p.recs.length, 0, clock.iso)

/-! ### Concrete fixtures used by counterexamples and witnesses -/

/-- A session in fallback mode with an empty localStorage, as set up by the
DOMContentLoaded error handler before seeding. -/
def fallbackState : DBState := { db := none, ls := none }

/-- A session in fallback mode whose stored blob is not valid serialized
data. -/
def corruptFallbackState : DBState := { db := none, ls := some "###" }

/-- A primary-mode session over an empty object store. -/
def emptyPrimaryState : DBState := { db := some ⟨[], 1⟩, ls := none }

/-- A species record dated 2025-01-15. -/
def recOak : AnalysisRecord :=
  { id := 1, date := "2025-01-15", type := "species", species := some "Oak",
    confidence := .num (mkRat 17 20), image := none, metadata := none,
    createdAt := "t1", updatedAt := "t1" }

/-- A species record dated 2025-01-13. -/
def recPine : AnalysisRecord :=
  { id := 2, date := "2025-01-13", type := "species", species := some "Pine",
    confidence := .num (mkRat 23 25), image := none, metadata := none,
    createdAt := "t2", updatedAt := "t2" }

/-- A path record (null species and confidence) dated 2025-01-14. -/
def recPath : AnalysisRecord :=
  { id := 3, date := "2025-01-14", type := "path", species := none,
    confidence := .null, image := none, metadata := none,
    createdAt := "t3", updatedAt := "t3" }

/-- A greencover record whose confidence is the number 0 (present but
falsy). -/
def recZero : AnalysisRecord :=
  { id := 5, date := "2025-01-12", type := "greencover", species := none,
    confidence := .num 0, image := none, metadata := none,
    createdAt := "t5", updatedAt := "t5" }

/-- A primary-mode session holding `recOak` only. -/
def onePrimaryState : DBState := { db := some ⟨[recOak], 2⟩, ls := none }

/-- A logger-shaped payload without an explicit id. -/
def rawDemo : RawRecord :=
  { date := "2025-01-16", type := "species", species := some "Birch" }

/-- A fixed clock. -/
def clk : Clock := { iso := "2025-01-16T00:00:00.000Z", ms := 100 }

/-- The keys of a frequency object, in iteration order. -/
def keysOf (m : List (String × Nat)) : List String := m.map (fun kv => kv.1)

/-- One step of the reference fold: keep the accumulated pair unless its
count fails to exceed the incoming pair's count. -/
def lastStep (acc : Option (String × Nat)) (kv : String × Nat) : Option (String × Nat) :=
  match acc with
  | none => some kv
  | some best => if best.2 > kv.2 then some best else some kv

/-- Reference description of the `reduce`: the pair of maximal count,
ties resolved to the pair occurring LATER in iteration order. -/
def lastArgmax (m : List (String × Nat)) : Option (String × Nat) :=
  m.foldl lastStep none

/-- The sort key of a record: its parsed date value (0 for an invalid
date — only used under the valid-date hypothesis). -/
def dateKey (a : AnalysisRecord) : Int := (dateValue a.date).getD 0

/-- Total, transitive ordering on records by descending parsed date. -/
def dateLE (a b : AnalysisRecord) : Bool := decide (dateKey b ≤ dateKey a)

/-- A second record dated 2025-01-15, sharing its date with `recOak`. -/
def recElm : AnalysisRecord :=
  { id := 4, date := "2025-01-15", type := "species", species := some "Elm",
    confidence := .null, image := none, metadata := none,
    createdAt := "t4", updatedAt := "t4" }

/-- A primary-mode session with four records, two sharing a date. -/
def sortDemoState : DBState := { db := some ⟨[recOak, recPine, recPath, recElm], 5⟩, ls := none }

/-- A well-formed serialized payload of two records. -/
def importPayload : String :=
  "[1|2025-01-15|species|+Oak|z|-|-|t1|t1\n2|2025-01-14|path|-|z|-|-|t2|t2]"

/-- The two records `importPayload` parses to. -/
def importParsed : List AnalysisRecord :=
  [{ id := 1, date := "2025-01-15", type := "species", species := some "Oak",
     confidence := .null, image := none, metadata := none,
     createdAt := "t1", updatedAt := "t1" },
   { id := 2, date := "2025-01-14", type := "path", species := none,
     confidence := .null, image := none, metadata := none,
     createdAt := "t2", updatedAt := "t2" }]

/-- The confidence values of exactly the records whose confidence is an
actual number (present: neither `null` nor `undefined`), including 0. -/
def numConfs (l : List AnalysisRecord) : List ℚ :=
  l.filterMap (fun a => match a.confidence with | .num q => some q | _ => none)

/-! ### Theorems -/

theorem applyFilters_eq_filter (l : List AnalysisRecord) (f : Filters) :
    applyFilters l f = l.filter (passesFilters f) := by
  have stage : ∀ (c : Bool) (p : AnalysisRecord → Bool) (m : List AnalysisRecord),
      (if c then m.filter p else m) = m.filter (fun a => !c || p a) := by
    intro c p m
    cases c <;> simp
  simp only [applyFilters, stage]
  simp only [List.filter_filter]
  refine List.filter_congr fun a _ => ?_
  simp only [passesFilters]
  cases strTruthy f.startDate <;> cases strTruthy f.endDate <;>
    cases strTruthy f.type <;> cases strTruthy f.species <;>
    cases qTruthy f.minConfidence <;>
    cases strLe (f.startDate.getD "") a.date <;>
    cases strLe a.date (f.endDate.getD "") <;>
    cases decide (a.type = f.type.getD "") <;>
    cases decide (a.species = f.species) <;>
    cases a.confidence.jsGe (f.minConfidence.getD 0) <;>
    rfl

/-! ### C1 — routing of operations in session fallback mode -/

/-- Helper: in a session whose localStorage blob is absent, empty, or
parseable, the fallback create completes. -/
theorem addAnalysisToLocalStorage_ok (st : DBState) (raw : RawRecord) (clock : Clock)
    (h : st.ls = none ∨ st.ls = some "" ∨ ∃ s l, st.ls = some s ∧ parseAnalyses s = some l) :
    ∃ v, addAnalysisToLocalStorage st raw clock = .ok v := by
  rcases h with h | h | ⟨s, l, h, hp⟩
  · rw [addAnalysisToLocalStorage, h]
    exact ⟨_, rfl⟩
  · rw [addAnalysisToLocalStorage, h]
    exact ⟨_, rfl⟩
  · by_cases hs : s = ""
    · rw [addAnalysisToLocalStorage, h, hs]
      exact ⟨_, rfl⟩
    · rw [addAnalysisToLocalStorage, h]
      simp only [if_neg hs, hp]
      exact ⟨_, rfl⟩

/-- C1, counterexample. The claim says every CRUD/analytics operation
invoked in session fallback mode (null database handle) is delegated to the
localStorage adapter and completes without error. In the code only
`addAnalysis`, `getAnalyses` (and `getAnalytics`, which goes through it)
check `this.db`; `getAnalysis`, `updateAnalysis`, `deleteAnalysis` and
`clearAllData` dereference the null handle and reject. -/
theorem c1_counterexample :
    getAnalysis fallbackState 1 = .error .nullDb ∧
    updateAnalysis fallbackState 1 {} clk = .error .nullDb ∧
    deleteAnalysis fallbackState 1 = .error .nullDb ∧
    clearAllData fallbackState = .error .nullDb :=
  ⟨rfl, rfl, rfl, rfl⟩

/-- C1, amended: in session fallback mode (null handle) with an absent,
empty or well-formed localStorage blob, `addAnalysis`, `getAnalyses` and
`getAnalytics` delegate to the localStorage adapter and complete without
error, while `getAnalysis`, `updateAnalysis`, `deleteAnalysis` and
`clearAllData` fail with the null-handle error instead of being
delegated. -/
theorem c1_amended (st : DBState)
    (hdb : st.db = none)
    (hls : st.ls = none ∨ st.ls = some "" ∨ ∃ s l, st.ls = some s ∧ parseAnalyses s = some l) :
    (∀ raw clock, ∃ v, addAnalysis st raw clock = .ok v) ∧
    (∀ filters, ∃ v, getAnalyses st filters = .ok v) ∧
    (∃ v, getAnalytics st = .ok v) ∧
    (∀ id, getAnalysis st id = .error .nullDb) ∧
    (∀ id patch clock, updateAnalysis st id patch clock = .error .nullDb) ∧
    (∀ id, deleteAnalysis st id = .error .nullDb) ∧
    clearAllData st = .error .nullDb := by
  refine ⟨?_, ?_, ?_, ?_, ?_, ?_, ?_⟩
  · intro raw clock
    have := addAnalysisToLocalStorage_ok st raw clock hls
    simpa [addAnalysis, hdb] using this
  · intro filters
    rw [getAnalyses, hdb]
    exact ⟨_, rfl⟩
  · rw [getAnalytics, getAnalyses, hdb]
    exact ⟨_, rfl⟩
  · intro id
    simp [getAnalysis, hdb]
  · intro id patch clock
    simp [updateAnalysis, hdb]
  · intro id
    simp [deleteAnalysis, hdb]
  · simp [clearAllData, hdb]

/-- C1, witness: the amended behaviour at the concrete fallback session. -/
theorem c1_witness :
    (∃ v, addAnalysis fallbackState rawDemo clk = .ok v) ∧
    (∃ v, getAnalytics fallbackState = .ok v) ∧
    getAnalysis fallbackState 7 = .error .nullDb :=
  ⟨(c1_amended fallbackState rfl (Or.inl rfl)).1 rawDemo clk,
   (c1_amended fallbackState rfl (Or.inl rfl)).2.2.1,
   (c1_amended fallbackState rfl (Or.inl rfl)).2.2.2.1 7⟩

/-! ### C2 — point lookups of absent ids -/

/-- C2, counterexample. The claim says `getById` of an absent id fails with
`NotFound`, in particular after a successful delete. In the code the
IndexedDB `get` request succeeds with `undefined` for an absent key, so the
promise resolves with no value instead of rejecting. -/
theorem c2_counterexample :
    deleteAnalysis onePrimaryState 1 = .ok (true, { db := some ⟨[], 2⟩, ls := none }) ∧
    getAnalysis { db := some ⟨[], 2⟩, ls := none } 1 = .ok none ∧
    getAnalysis emptyPrimaryState 5 = .ok none :=
  ⟨rfl, rfl, rfl⟩

/-- C2, amended: for every id absent from the active (primary) store,
`getAnalysis` resolves successfully with no record (JS `undefined`) rather
than failing with `NotFound`; in particular after `deleteAnalysis(id)`
succeeds, `getAnalysis(id)` resolves with no record. (Only `updateAnalysis`
rejects with the not-found error.) -/
theorem c2_amended (st : DBState) (p : PrimaryStore) (id : Int)
    (hdb : st.db = some p) :
    (p.recs.find? (fun r => r.id = id) = none → getAnalysis st id = .ok none) ∧
    (∀ b st', deleteAnalysis st id = .ok (b, st') → getAnalysis st' id = .ok none) := by
  constructor
  · intro h
    simp [getAnalysis, hdb, h]
  · intro b st' h
    simp only [deleteAnalysis, hdb, Except.ok.injEq, Prod.mk.injEq] at h
    obtain ⟨-, hst⟩ := h
    subst hst
    simp only [getAnalysis]
    have hnone : List.find? (fun r => decide (r.id = id))
        (List.filter (fun r => decide (r.id ≠ id)) p.recs) = none := by
      rw [List.find?_eq_none]
      intro r hr
      have h2 := (List.mem_filter.mp hr).2
      simpa using h2
    rw [hnone]

/-- C2, witness: the amended behaviour at a concrete store. -/
theorem c2_witness :
    getAnalysis onePrimaryState 9 = .ok none ∧
    getAnalysis { db := some ⟨[], 2⟩, ls := none } 1 = .ok none :=
  ⟨(c2_amended onePrimaryState ⟨[recOak], 2⟩ 9 rfl).1 (by decide),
   (c2_amended { db := some ⟨[], 2⟩, ls := none } ⟨[], 2⟩ 1 rfl).1 rfl⟩

/-! ### C3 — the filter engine -/

/-- C3, counterexample. The claim says any supplied predicate constrains
the result (exact equality on `type`), with only absent predicates imposing
no constraint. But the engine guards each predicate by JS truthiness, so a
supplied empty-string `type` predicate is skipped: the record below has
`type = "species" ≠ ""` yet survives a filter object carrying
`type: ""`. -/
theorem c3_counterexample :
    applyFilters [recOak] { type := some "" } = [recOak] ∧ recOak.type ≠ "" :=
  ⟨rfl, by decide⟩

/-- C3, amended: the engine returns exactly the records satisfying every
TRUTHY supplied predicate (`date ≥ startDate`, `date ≤ endDate` lexically,
strict equality on `type`/`species`, JS-coercing `confidence ≥
minConfidence`); a predicate that is absent or falsy (empty string, zero
`minConfidence`) imposes no constraint. Consequently the sequential
application order is irrelevant: the result is one conjunctive filter
pass. -/
theorem c3_amended (l : List AnalysisRecord) (f : Filters) :
    applyFilters l f = l.filter (passesFilters f) :=
  applyFilters_eq_filter l f

/-! ### C4 — update is a merge-patch -/

/-- C4, confirmed: `updateAnalysis` rejects with the not-found error when no
record carries the id; otherwise it resolves with the merged record, whose
fields outside the patch are unchanged, whose `updatedAt` is the current
timestamp (hence `≥` the previous one whenever the clock has not gone
backwards), and persists it. -/
theorem c4_update (st : DBState) (p : PrimaryStore) (id : Int) (patch : Patch) (clock : Clock)
    (hdb : st.db = some p) :
    (p.recs.find? (fun r => r.id = id) = none →
      updateAnalysis st id patch clock = .error .notFound) ∧
    (∀ analysis, p.recs.find? (fun r => r.id = id) = some analysis →
      strLe analysis.updatedAt clock.iso = true →
      updateAnalysis st id patch clock =
        .ok (mergePatch analysis patch clock.iso,
          { st with db := some { p with recs := putByKey (mergePatch analysis patch clock.iso) p.recs } }) ∧
      (patch.id = none → (mergePatch analysis patch clock.iso).id = analysis.id) ∧
      (patch.date = none → (mergePatch analysis patch clock.iso).date = analysis.date) ∧
      (patch.type = none → (mergePatch analysis patch clock.iso).type = analysis.type) ∧
      (patch.species = none → (mergePatch analysis patch clock.iso).species = analysis.species) ∧
      (patch.confidence = none → (mergePatch analysis patch clock.iso).confidence = analysis.confidence) ∧
      (patch.image = none → (mergePatch analysis patch clock.iso).image = analysis.image) ∧
      (patch.metadata = none → (mergePatch analysis patch clock.iso).metadata = analysis.metadata) ∧
      (patch.createdAt = none → (mergePatch analysis patch clock.iso).createdAt = analysis.createdAt) ∧
      (mergePatch analysis patch clock.iso).updatedAt = clock.iso ∧
      strLe analysis.updatedAt (mergePatch analysis patch clock.iso).updatedAt = true) := by
  constructor
  · intro h
    simp [updateAnalysis, hdb, h]
  · intro analysis hfind hle
    refine ⟨by simp [updateAnalysis, hdb, hfind], ?_, ?_, ?_, ?_, ?_, ?_, ?_, ?_, rfl, ?_⟩
    · intro h
      simp [mergePatch, h]
    · intro h
      simp [mergePatch, h]
    · intro h
      simp [mergePatch, h]
    · intro h
      simp [mergePatch, h]
    · intro h
      simp [mergePatch, h]
    · intro h
      simp [mergePatch, h]
    · intro h
      simp [mergePatch, h]
    · intro h
      simp [mergePatch, h]
    · simpa [mergePatch] using hle

/-- C4, witness: updating the stored record's confidence to 0.5 at a later
clock leaves every other field unchanged and refreshes `updatedAt`. -/
theorem c4_witness :
    strLe recOak.updatedAt "t2" = true ∧
    updateAnalysis onePrimaryState 1 { confidence := some (.num (mkRat 1 2)) } ⟨"t2", 200⟩ =
      .ok (mergePatch recOak { confidence := some (.num (mkRat 1 2)) } "t2",
        { db := some ⟨putByKey (mergePatch recOak { confidence := some (.num (mkRat 1 2)) } "t2") [recOak], 2⟩,
          ls := none }) ∧
    (mergePatch recOak { confidence := some (.num (mkRat 1 2)) } "t2").species = recOak.species ∧
    (mergePatch recOak { confidence := some (.num (mkRat 1 2)) } "t2").date = recOak.date ∧
    (mergePatch recOak { confidence := some (.num (mkRat 1 2)) } "t2").updatedAt = "t2" := by
  have h := (c4_update onePrimaryState ⟨[recOak], 2⟩ 1
      { confidence := some (.num (mkRat 1 2)) } ⟨"t2", 200⟩ rfl).2 recOak (by decide) (by decide)
  exact ⟨by decide, h.1, h.2.2.2.2.1 rfl, h.2.2.1 rfl, h.2.2.2.2.2.2.2.2.2.1⟩

/-! ### C5 — most common species -/

theorem keysOf_bump (m : List (String × Nat)) (k : String) :
    keysOf (bump m k) = if m.any (fun kv => kv.1 = k) then keysOf m else keysOf m ++ [k] := by
  unfold bump keysOf
  split
  · rw [List.map_map]
    exact List.map_congr_left fun kv _ => by dsimp only [Function.comp]; split <;> rfl
  · simp

theorem keysOf_bump_nodup (m : List (String × Nat)) (k : String)
    (h : (keysOf m).Nodup) : (keysOf (bump m k)).Nodup := by
  rw [keysOf_bump]
  split
  · exact h
  · rename_i hany
    rw [List.nodup_append]
    refine ⟨h, List.nodup_singleton k, ?_⟩
    intro x hx hk
    rw [List.mem_singleton] at hk
    subst hk
    rw [Bool.not_eq_true, List.any_eq_false] at hany
    obtain ⟨kv, hkv, hfst⟩ := List.mem_map.mp hx
    exact hany kv hkv (by simpa using hfst)

theorem speciesFreq_go_nodup (l : List AnalysisRecord) (m0 : List (String × Nat))
    (h : (keysOf m0).Nodup) :
    (keysOf (l.foldl (fun m a =>
      match speciesTruthy a with
      | some s => bump m s
      | none => m) m0)).Nodup := by
  induction l generalizing m0 with
  | nil => exact h
  | cons a t ih =>
    rw [List.foldl_cons]
    cases speciesTruthy a with
    | none => exact ih m0 h
    | some s => exact ih (bump m0 s) (keysOf_bump_nodup m0 s h)

theorem speciesFreq_nodup (l : List AnalysisRecord) : (keysOf (speciesFreq l)).Nodup :=
  speciesFreq_go_nodup l [] (by simp [keysOf])

theorem freqLookup_mem (m : List (String × Nat)) (h : (keysOf m).Nodup)
    (kv : String × Nat) (hm : kv ∈ m) : freqLookup m kv.1 = some kv.2 := by
  induction m with
  | nil => cases hm
  | cons x t ih =>
    rcases List.mem_cons.mp hm with h1 | h1
    · subst h1
      simp [freqLookup]
    · have hne : ¬ (x.1 = kv.1) := by
        intro he
        have hmem : kv.1 ∈ keysOf t := List.mem_map.mpr ⟨kv, h1, rfl⟩
        rw [← he] at hmem
        exact (List.nodup_cons.mp h).1 hmem
      have htail := ih (List.nodup_cons.mp h).2 h1
      unfold freqLookup at htail ⊢
      rw [List.find?_cons_of_neg _ (by simpa using hne)]
      exact htail

theorem jsfold_eq_lastfold (m : List (String × Nat))
    (s : List (String × Nat)) (acc : Option (String × Nat))
    (hacc : ∀ kv, acc = some kv → freqLookup m kv.1 = some kv.2)
    (hs : ∀ kv ∈ s, freqLookup m kv.1 = some kv.2) :
    (s.map (fun kv => kv.1)).foldl (fun a b =>
        match a with
        | none => some b
        | some a0 => if (freqLookup m a0).getD 0 > (freqLookup m b).getD 0 then some a0 else some b)
      (acc.map (fun kv => kv.1))
    = (s.foldl lastStep acc).map (fun kv => kv.1) := by
  induction s generalizing acc with
  | nil => rfl
  | cons kv t ih =>
    have hkv := hs kv (List.mem_cons_self kv t)
    have hstep : (match acc.map (fun kv => kv.1) with
        | none => some kv.1
        | some a0 => if (freqLookup m a0).getD 0 > (freqLookup m kv.1).getD 0 then some a0 else some kv.1)
        = (lastStep acc kv).map (fun kv => kv.1) := by
      cases acc with
      | none => rfl
      | some best =>
        have hbest := hacc best rfl
        show (if (freqLookup m best.1).getD 0 > (freqLookup m kv.1).getD 0
            then some best.1 else some kv.1)
          = (lastStep (some best) kv).map (fun kv => kv.1)
        rw [hbest, hkv]
        simp only [Option.getD_some, lastStep]
        split <;> rfl
    have hinv : ∀ kv2, lastStep acc kv = some kv2 → freqLookup m kv2.1 = some kv2.2 := by
      intro kv2 h2
      cases acc with
      | none =>
        simp only [lastStep] at h2
        injection h2 with h3
        subst h3
        exact hkv
      | some best =>
        simp only [lastStep] at h2
        split at h2
        · injection h2 with h3
          subst h3
          exact hacc best rfl
        · injection h2 with h3
          subst h3
          exact hkv
    rw [List.map_cons, List.foldl_cons, List.foldl_cons, hstep]
    exact ih (lastStep acc kv) hinv (fun kv2 h2 => hs kv2 (List.mem_cons_of_mem kv h2))

theorem jsReduceMostCommon_eq_lastArgmax (m : List (String × Nat))
    (h : (keysOf m).Nodup) :
    jsReduceMostCommon m = (lastArgmax m).map (fun kv => kv.1) := by
  unfold jsReduceMostCommon lastArgmax
  have := jsfold_eq_lastfold m m none (by intro kv hkv; cases hkv)
    (fun kv hkv => freqLookup_mem m h kv hkv)
  simpa using this

theorem lastfold_spec (m : List (String × Nat)) :
    ∀ (acc : Option (String × Nat)) (kv : String × Nat), m.foldl lastStep acc = some kv →
      (acc = some kv ∨ kv ∈ m) ∧ (∀ x ∈ m, x.2 ≤ kv.2) ∧ (∀ a, acc = some a → a.2 ≤ kv.2) := by
  induction m with
  | nil =>
    intro acc kv h
    have hacc : acc = some kv := h
    refine ⟨Or.inl hacc, by simp, ?_⟩
    intro a ha
    rw [hacc] at ha
    injection ha with h4
    subst h4
    exact Nat.le_refl _
  | cons y t ih =>
    intro acc kv h
    rw [List.foldl_cons] at h
    obtain ⟨h1, h2, h3⟩ := ih (lastStep acc y) kv h
    obtain ⟨b, hb, hborig, hyb, hab⟩ :
        ∃ b, lastStep acc y = some b ∧ (b = y ∨ acc = some b) ∧ y.2 ≤ b.2 ∧
          (∀ a, acc = some a → a.2 ≤ b.2) := by
      cases acc with
      | none =>
        exact ⟨y, rfl, Or.inl rfl, Nat.le_refl _, fun a ha => by cases ha⟩
      | some best =>
        by_cases hgt : best.2 > y.2
        · refine ⟨best, by simp [lastStep, hgt], Or.inr rfl, Nat.le_of_lt hgt, ?_⟩
          intro a ha
          cases ha
          exact Nat.le_refl _
        · refine ⟨y, by simp [lastStep, hgt], Or.inl rfl, Nat.le_refl _, ?_⟩
          intro a ha
          cases ha
          exact Nat.le_of_not_lt hgt
    have hbkv : b.2 ≤ kv.2 := h3 b hb
    refine ⟨?_, ?_, ?_⟩
    · rcases h1 with h1 | h1
      · rw [hb] at h1
        injection h1 with hbk
        subst hbk
        rcases hborig with hby | hacc
        · exact Or.inr (hby ▸ List.mem_cons_self y t)
        · exact Or.inl hacc
      · exact Or.inr (List.mem_cons_of_mem y h1)
    · intro x hx
      rcases List.mem_cons.mp hx with hx | hx
      · exact hx ▸ Nat.le_trans hyb hbkv
      · exact h2 x hx
    · intro a ha
      exact Nat.le_trans (hab a ha) hbkv

theorem lastArgmax_spec (m : List (String × Nat)) (kv : String × Nat)
    (h : lastArgmax m = some kv) :
    kv ∈ m ∧ ∀ x ∈ m, x.2 ≤ kv.2 := by
  obtain ⟨h1, h2, -⟩ := lastfold_spec m none kv h
  rcases h1 with h1 | h1
  · cases h1
  · exact ⟨h1, h2⟩

/-- C5, counterexample. The claim says ties between equally frequent
species are broken in favour of the species FIRST encountered during
aggregation. With one "Oak" record encountered before one "Pine" record
(both frequency 1, as the frequency object shows), the `reduce` — whose
accumulator only survives on a strictly greater count — yields "Pine", the
species encountered last. -/
theorem c5_counterexample :
    speciesFreq [recOak, recPine] = [("Oak", 1), ("Pine", 1)] ∧
    (computeAnalytics [recOak, recPine]).mostCommonSpecies = some "Pine" :=
  ⟨rfl, rfl⟩

/-- C5, amended: `mostCommonSpecies` is the truthy species value of maximal
frequency, with ties between equally frequent species broken in favour of
the species encountered LAST (in first-occurrence order) during
aggregation — `lastArgmax` keeps the accumulated species only when its
count is strictly greater than the incoming one's. -/
theorem c5_mostCommon (l : List AnalysisRecord) :
    (computeAnalytics l).mostCommonSpecies = (lastArgmax (speciesFreq l)).map (fun kv => kv.1) ∧
    (∀ s, (computeAnalytics l).mostCommonSpecies = some s →
      ∃ c, (s, c) ∈ speciesFreq l ∧ ∀ kv ∈ speciesFreq l, kv.2 ≤ c) := by
  have heq : (computeAnalytics l).mostCommonSpecies
      = (lastArgmax (speciesFreq l)).map (fun kv => kv.1) :=
    jsReduceMostCommon_eq_lastArgmax (speciesFreq l) (speciesFreq_nodup l)
  refine ⟨heq, ?_⟩
  intro s hs
  rw [heq] at hs
  obtain ⟨kv, hkv, hfst⟩ := Option.map_eq_some'.mp hs
  obtain ⟨hmem, hmax⟩ := lastArgmax_spec (speciesFreq l) kv hkv
  refine ⟨kv.2, ?_, hmax⟩
  rw [← hfst]
  exact hmem

/-- C5, witness: the amended maximality at a concrete store ("Oak" twice,
"Pine" once). -/
theorem c5_witness :
    (computeAnalytics [recOak, recPine, recOak]).mostCommonSpecies = some "Oak" ∧
    ∃ c, ("Oak", c) ∈ speciesFreq [recOak, recPine, recOak] ∧
      ∀ kv ∈ speciesFreq [recOak, recPine, recOak], kv.2 ≤ c :=
  ⟨by decide, (c5_mostCommon [recOak, recPine, recOak]).2 "Oak" (by decide)⟩

/-! ### C6 — ordering of `getAnalyses` results -/

theorem jsDateLe_eq_dateLE (a b : AnalysisRecord)
    (ha : (dateValue a.date).isSome) (hb : (dateValue b.date).isSome) :
    jsDateLe a b = dateLE a b := by
  obtain ⟨va, hva⟩ := Option.isSome_iff_exists.mp ha
  obtain ⟨vb, hvb⟩ := Option.isSome_iff_exists.mp hb
  simp only [jsDateLe, dateCmp, dateLE, dateKey, hva, hvb, Option.getD_some]
  exact decide_eq_decide.mpr (by omega)

theorem insertCond_valid {a b : AnalysisRecord}
    (ha : (dateValue a.date).isSome) (hb : (dateValue b.date).isSome) :
    (jsDateLe b a && !jsDateLe a b) = decide (dateKey a < dateKey b) := by
  rw [jsDateLe_eq_dateLE b a hb ha, jsDateLe_eq_dateLE a b ha hb]
  simp only [dateLE]
  by_cases h : dateKey a < dateKey b
  · simp [h, Int.le_of_lt h, Int.not_le.mpr h]
  · have h2 : dateKey b ≤ dateKey a := Int.not_lt.mp h
    simp [h, h2]

theorem insertByCmp_perm (le : AnalysisRecord → AnalysisRecord → Bool)
    (a : AnalysisRecord) (l : List AnalysisRecord) :
    (insertByCmp le a l).Perm (a :: l) := by
  induction l with
  | nil => exact List.Perm.refl _
  | cons b bs ih =>
    unfold insertByCmp
    split
    · exact (ih.cons b).trans (List.Perm.swap a b bs)
    · exact List.Perm.refl _

theorem sortByDateDesc_perm (l : List AnalysisRecord) : (sortByDateDesc l).Perm l := by
  induction l with
  | nil => exact List.Perm.refl _
  | cons x xs ih =>
    unfold sortByDateDesc
    rw [List.foldr_cons]
    exact (insertByCmp_perm jsDateLe x _).trans (ih.cons x)

theorem mem_insertByCmp {le : AnalysisRecord → AnalysisRecord → Bool}
    {x a : AnalysisRecord} {l : List AnalysisRecord} :
    x ∈ insertByCmp le a l ↔ x = a ∨ x ∈ l := by
  rw [(insertByCmp_perm le a l).mem_iff, List.mem_cons]

theorem insertByCmp_sorted {a : AnalysisRecord} {l : List AnalysisRecord}
    (ha : (dateValue a.date).isSome) (hl : ∀ r ∈ l, (dateValue r.date).isSome)
    (h : l.Pairwise (fun x y => dateKey y ≤ dateKey x)) :
    (insertByCmp jsDateLe a l).Pairwise (fun x y => dateKey y ≤ dateKey x) := by
  induction l with
  | nil => simp [insertByCmp]
  | cons b bs ih =>
    unfold insertByCmp
    rw [insertCond_valid ha (hl b (List.mem_cons_self b bs))]
    obtain ⟨hhead, htail⟩ := List.pairwise_cons.mp h
    by_cases hc : dateKey a < dateKey b
    · rw [if_pos (by simpa using hc)]
      refine List.pairwise_cons.mpr ⟨?_, ih (fun r hr => hl r (List.mem_cons_of_mem b hr)) htail⟩
      intro y hy
      rcases mem_insertByCmp.mp hy with rfl | hy
      · exact Int.le_of_lt hc
      · exact hhead y hy
    · rw [if_neg (by simpa using hc)]
      refine List.pairwise_cons.mpr ⟨?_, h⟩
      intro y hy
      rcases List.mem_cons.mp hy with rfl | hy
      · exact Int.not_lt.mp hc
      · exact Int.le_trans (hhead y hy) (Int.not_lt.mp hc)

theorem sortByDateDesc_sorted (l : List AnalysisRecord)
    (hl : ∀ r ∈ l, (dateValue r.date).isSome) :
    (sortByDateDesc l).Pairwise (fun x y => dateKey y ≤ dateKey x) := by
  induction l with
  | nil => simp [sortByDateDesc]
  | cons x xs ih =>
    unfold sortByDateDesc
    rw [List.foldr_cons]
    have hxs : ∀ r ∈ xs, (dateValue r.date).isSome :=
      fun r hr => hl r (List.mem_cons_of_mem x hr)
    refine insertByCmp_sorted (hl x (List.mem_cons_self x xs)) ?_ (ih hxs)
    intro r hr
    exact hxs r ((sortByDateDesc_perm xs).mem_iff.mp hr)

theorem filter_insertByCmp (P : AnalysisRecord → Bool)
    (hP : ∀ x y, P x = true → P y = true → dateKey x = dateKey y)
    {a : AnalysisRecord} {l : List AnalysisRecord}
    (ha : (dateValue a.date).isSome) (hl : ∀ r ∈ l, (dateValue r.date).isSome) :
    (insertByCmp jsDateLe a l).filter P = if P a then a :: l.filter P else l.filter P := by
  induction l with
  | nil =>
    simp only [insertByCmp, List.filter]
    split <;> rename_i heq <;> simp [heq]
  | cons b bs ih =>
    unfold insertByCmp
    rw [insertCond_valid ha (hl b (List.mem_cons_self b bs))]
    have hbs : ∀ r ∈ bs, (dateValue r.date).isSome :=
      fun r hr => hl r (List.mem_cons_of_mem b hr)
    by_cases hc : dateKey a < dateKey b
    · rw [if_pos (by simpa using hc)]
      by_cases hPa : P a = true
      · have hPb : ¬ (P b = true) := fun hPb => absurd (hP a b hPa hPb) (by omega)
        rw [List.filter_cons_of_neg hPb, ih hbs, List.filter_cons_of_neg hPb, if_pos hPa]
      · simp only [List.filter_cons, ih hbs, if_neg hPa]
    · rw [if_neg (by simpa using hc)]
      rw [List.filter_cons]

theorem filter_sortByDateDesc (P : AnalysisRecord → Bool)
    (hP : ∀ x y, P x = true → P y = true → dateKey x = dateKey y)
    (l : List AnalysisRecord) (hl : ∀ r ∈ l, (dateValue r.date).isSome) :
    (sortByDateDesc l).filter P = l.filter P := by
  induction l with
  | nil => rfl
  | cons x xs ih =>
    have hxs : ∀ r ∈ xs, (dateValue r.date).isSome :=
      fun r hr => hl r (List.mem_cons_of_mem x hr)
    have hsorted : ∀ r ∈ sortByDateDesc xs, (dateValue r.date).isSome :=
      fun r hr => hxs r ((sortByDateDesc_perm xs).mem_iff.mp hr)
    have hrw : sortByDateDesc (x :: xs) = insertByCmp jsDateLe x (sortByDateDesc xs) := rfl
    rw [hrw, filter_insertByCmp P hP (hl x (List.mem_cons_self x xs)) hsorted, ih hxs,
      List.filter_cons]

/-- C6, confirmed: over a store whose records all carry valid `YYYY-MM-DD`
dates, `getAnalyses` returns exactly the filtered records (a permutation of
the filter engine's output), sorted by descending date value, and records
with equal `date` strings keep their relative store order: for every date
string, restricting the output to that date gives exactly the filtered
records of that date in store order (JS `Array.prototype.sort` is stable,
and equal dates compare equal under the comparator). -/
theorem c6_getAnalyses (st : DBState) (p : PrimaryStore) (f : Filters)
    (hdb : st.db = some p)
    (hdates : ∀ r ∈ p.recs, (dateValue r.date).isSome) :
    ∃ out, getAnalyses st f = .ok out ∧
      out.Perm (applyFilters p.recs f) ∧
      out.Pairwise (fun a b => dateKey b ≤ dateKey a) ∧
      (∀ d, out.filter (fun r => r.date = d) =
        (applyFilters p.recs f).filter (fun r => r.date = d)) := by
  have hmemfl : ∀ r ∈ applyFilters p.recs f, (dateValue r.date).isSome := by
    intro r hr
    rw [applyFilters_eq_filter] at hr
    exact hdates r (List.mem_filter.mp hr).1
  refine ⟨sortByDateDesc (applyFilters p.recs f), by simp [getAnalyses, hdb], ?_, ?_, ?_⟩
  · exact sortByDateDesc_perm _
  · exact sortByDateDesc_sorted _ hmemfl
  · intro d
    refine filter_sortByDateDesc _ ?_ _ hmemfl
    intro x y hx hy
    have hx2 : x.date = d := by simpa using hx
    have hy2 : y.date = d := by simpa using hy
    simp [dateKey, hx2, hy2]

/-- C6, witness: the ordering guarantees at a concrete four-record store
with a duplicated date. -/
theorem c6_witness :
    (∀ r ∈ [recOak, recPine, recPath, recElm], (dateValue r.date).isSome) ∧
    (∃ out, getAnalyses sortDemoState {} = .ok out ∧
      out.Perm (applyFilters [recOak, recPine, recPath, recElm] {}) ∧
      out.Pairwise (fun a b => dateKey b ≤ dateKey a) ∧
      (∀ d, out.filter (fun r => r.date = d) =
        (applyFilters [recOak, recPine, recPath, recElm] {}).filter (fun r => r.date = d))) :=
  ⟨by decide,
   c6_getAnalyses sortDemoState ⟨[recOak, recPine, recPath, recElm], 5⟩ {} rfl (by decide)⟩

/-! ### C7 — importData -/

/-- C7, confirmed: once the whole payload has parsed, `importData` resolves
with the length of the fully-parsed set and the state produced by the
create loop; the loop handles each record inside its own `try`/`catch`, so
a failing create leaves the state as it was and never aborts the batch,
and the returned count is independent of how many creates succeeded. -/
theorem c7_import (st : DBState) (data : String) (clock : Clock) (l : List AnalysisRecord)
    (hparse : parseAnalyses data = some l) :
    importData st data clock = .ok (l.length, importLoop st (l.map recToRaw) clock) ∧
    (∀ s raw rest, importLoop s (raw :: rest) clock =
      importLoop (match addAnalysis s raw clock with
        | .ok (_, s') => s'
        | .error _ => s) rest clock) := by
  constructor
  · simp [importData, hparse]
  · intro s raw rest
    rfl

/-- C7, witness: importing the two-record payload into a session whose
fallback blob is corrupt — every individual create fails and the state is
unchanged — still resolves with count 2, the length of the parsed set. -/
theorem c7_witness :
    parseAnalyses importPayload = some importParsed ∧
    importData corruptFallbackState importPayload clk = .ok (2, corruptFallbackState) := by
  refine ⟨by decide, ?_⟩
  rw [(c7_import corruptFallbackState importPayload clk importParsed (by decide)).1]
  rfl

/-! ### C8 — CSV export -/

/-- C8, counterexample. The claim fixes the header as
`ID,Date,Type,Species,Confidence,GreenCover,TreeCount,CreatedAt`; the code
joins `['ID', 'Date', 'Type', 'Species', 'Confidence', 'Green Cover',
'Tree Count', 'Created At']`, so the last three column names contain
spaces. Exporting an empty store yields exactly the header line. -/
theorem c8_counterexample :
    exportData emptyPrimaryState "csv" =
      .ok "ID,Date,Type,Species,Confidence,Green Cover,Tree Count,Created At" ∧
    "ID,Date,Type,Species,Confidence,Green Cover,Tree Count,Created At" ≠
      "ID,Date,Type,Species,Confidence,GreenCover,TreeCount,CreatedAt" :=
  ⟨rfl, by decide⟩

/-- C8, amended: `exportData("csv")` produces the fixed header
`ID,Date,Type,Species,Confidence,Green Cover,Tree Count,Created At`
(spaces inside the multi-word column names), followed by one comma-joined
8-cell line per record of the fetched set, in which each missing optional
field (`species`, `confidence`, `metadata.greenCover`,
`metadata.treeCount`) renders as an empty cell. -/
theorem c8_amended (st : DBState) (l : List AnalysisRecord)
    (h : getAnalyses st {} = .ok l) :
    exportData st "csv" = .ok (String.intercalate "\n" (csvHeader :: l.map csvLine)) ∧
    csvHeader = "ID,Date,Type,Species,Confidence,Green Cover,Tree Count,Created At" ∧
    (∀ a : AnalysisRecord, csvLine a = String.intercalate "," (csvRow a)) ∧
    (∀ a : AnalysisRecord, a.species = none → a.confidence = .null → a.metadata = none →
      csvRow a = [toString a.id, a.date, a.type, "", "", "", "", a.createdAt]) := by
  refine ⟨by simp [exportData, h, Except.map], by decide, fun a => rfl, ?_⟩
  intro a h1 h2 h3
  simp [csvRow, csvCell, h1, h2, h3]

/-- C8, witness: exporting a one-record store whose record misses every
optional field renders the record line with five consecutive empty
cells. -/
theorem c8_witness :
    getAnalyses { db := some ⟨[recPath], 4⟩, ls := none } {} = .ok [recPath] ∧
    exportData { db := some ⟨[recPath], 4⟩, ls := none } "csv" =
      .ok (String.intercalate "\n" (csvHeader :: [recPath].map csvLine)) ∧
    csvRow recPath = ["3", "2025-01-14", "path", "", "", "", "", "t3"] ∧
    csvLine recPath = "3,2025-01-14,path,,,,,t3" := by
  refine ⟨rfl, (c8_amended { db := some ⟨[recPath], 4⟩, ls := none } [recPath] rfl).1, ?_, by decide⟩
  have h4 := (c8_amended { db := some ⟨[recPath], 4⟩, ls := none } [recPath] rfl).2.2.2
  rw [h4 recPath rfl rfl rfl]
  decide

/-! ### C9 — corrupt fallback payloads -/

/-- C9, counterexample. The claim says a corrupt stored payload raises an
error that propagates to the caller for reads as well as writes. The read
path (`getAnalysesFromLocalStorage`) wraps everything in `try`/`catch` and
returns `[]` on a parse failure — nothing propagates. -/
theorem c9_counterexample :
    parseAnalyses "###" = none ∧
    getAnalysesFromLocalStorage corruptFallbackState {} = [] ∧
    getAnalyses corruptFallbackState {} = .ok [] :=
  ⟨rfl, rfl, rfl⟩

/-- C9, amended: with a stored payload that is not valid serialized data,
the fallback WRITE path (`addAnalysisToLocalStorage`, and `addAnalysis` in
fallback mode) re-throws the parse error, which reaches the caller as
`CorruptState`; the fallback READ path catches the same error and returns
the empty collection instead, so `getAnalyses` completes successfully. -/
theorem c9_amended (st : DBState) (s : String)
    (hls : st.ls = some s) (hne : s ≠ "") (hbad : parseAnalyses s = none) :
    (∀ raw clock, addAnalysisToLocalStorage st raw clock = .error .corrupt) ∧
    (st.db = none → ∀ raw clock, addAnalysis st raw clock = .error .corrupt) ∧
    (∀ f, getAnalysesFromLocalStorage st f = []) ∧
    (st.db = none → ∀ f, getAnalyses st f = .ok []) := by
  have hadd : ∀ raw clock, addAnalysisToLocalStorage st raw clock = .error .corrupt := by
    intro raw clock
    rw [addAnalysisToLocalStorage, hls]
    simp only [if_neg hne, hbad]
    rfl
  have hget : ∀ f, getAnalysesFromLocalStorage st f = [] := by
    intro f
    rw [getAnalysesFromLocalStorage, hls]
    simp only [if_neg hne, hbad]
  refine ⟨hadd, ?_, hget, ?_⟩
  · intro hdb raw clock
    rw [addAnalysis, hdb]
    exact hadd raw clock
  · intro hdb f
    rw [getAnalyses, hdb, hget f]

/-- C9, witness: the amended behaviour at the concrete corrupt session. -/
theorem c9_witness :
    addAnalysisToLocalStorage corruptFallbackState rawDemo clk = .error .corrupt ∧
    addAnalysis corruptFallbackState rawDemo clk = .error .corrupt ∧
    getAnalysesFromLocalStorage corruptFallbackState {} = [] ∧
    getAnalyses corruptFallbackState {} = .ok [] :=
  ⟨(c9_amended corruptFallbackState "###" rfl (by decide) rfl).1 rawDemo clk,
   (c9_amended corruptFallbackState "###" rfl (by decide) rfl).2.1 rfl rawDemo clk,
   (c9_amended corruptFallbackState "###" rfl (by decide) rfl).2.2.1 {},
   (c9_amended corruptFallbackState "###" rfl (by decide) rfl).2.2.2 rfl {}⟩

/-! ### C10 — average confidence -/

theorem numConfs_eq (l : List AnalysisRecord) :
    numConfs l = (l.filter (fun a => a.confidence.isNum)).map (fun a => a.confidence.toQ) := by
  induction l with
  | nil => rfl
  | cons a t ih =>
    cases hc : a.confidence <;>
      simp [numConfs, List.filterMap_cons, List.filter_cons, JVal.isNum, JVal.toQ, hc, ih] <;>
      simpa [numConfs] using ih

theorem foldl_toQ (c : ℚ) (m : List AnalysisRecord) :
    m.foldl (fun sum a => sum + a.confidence.toQ) c
      = c + (m.map (fun a => a.confidence.toQ)).sum := by
  induction m generalizing c with
  | nil => simp
  | cons a t ih => simp [List.foldl_cons, ih, add_assoc]

/-- C10, confirmed: `averageConfidence` is 0 when no record carries a
numeric (non-null, defined) confidence — including the empty store — and
otherwise is the arithmetic mean of confidence over exactly the records
where confidence is a number, including records whose confidence is 0. -/
theorem c10_averageConfidence (l : List AnalysisRecord) :
    (numConfs l = [] → (computeAnalytics l).averageConfidence = 0) ∧
    (numConfs l ≠ [] →
      (computeAnalytics l).averageConfidence = (numConfs l).sum / ((numConfs l).length : ℚ)) := by
  have hlen : (numConfs l).length = (l.filter (fun a => a.confidence.isNum)).length := by
    rw [numConfs_eq, List.length_map]
  have hsum : (numConfs l).sum
      = ((l.filter (fun a => a.confidence.isNum)).map (fun a => a.confidence.toQ)).sum := by
    rw [numConfs_eq]
  constructor
  · intro h0
    have : (l.filter (fun a => a.confidence.isNum)).length = 0 := by
      rw [← hlen, h0]
      rfl
    simp [computeAnalytics, this]
  · intro h0
    have hpos : 0 < (l.filter (fun a => a.confidence.isNum)).length := by
      rw [← hlen]
      exact List.length_pos.mpr h0
    simp only [computeAnalytics, if_pos hpos, foldl_toQ, zero_add, hsum, hlen]

/-- C10, witness: a store with only null confidence averages to 0; a store
with numeric confidences (one of them 0) averages over exactly those. -/
theorem c10_witness :
    numConfs [recPath] = [] ∧
    (computeAnalytics [recPath]).averageConfidence = 0 ∧
    numConfs [recOak, recPath, recZero] = [mkRat 17 20, 0] ∧
    (computeAnalytics [recOak, recPath, recZero]).averageConfidence =
      (numConfs [recOak, recPath, recZero]).sum / ((numConfs [recOak, recPath, recZero]).length : ℚ) :=
  ⟨by decide, (c10_averageConfidence [recPath]).1 (by decide), by decide,
   (c10_averageConfidence [recOak, recPath, recZero]).2 (by decide)⟩

end EcoView

